import Mathlib

/-!
Verification of the arcade-input service: pulse aggregation (coin-in) and the
hopper dispense controller (coin-out).

The definitions below are a shallow embedding of the JavaScript sources.
Timers are modelled as pending absolute deadlines (`Option Int`); each
`setTimeout` records its deadline, each `clearTimeout` clears it, and a
timed run fires a pending timer before any later-stamped input is handled,
matching the single-threaded run-to-completion event-loop semantics.
Outbound `dispatch` calls are modelled as ghost event lists on the state.
-/

namespace ArcadeInput

/-- Spacing check for a list of event timestamps: consecutive times are
strictly increasing and less than `gap` milliseconds apart. -/
def closelySpaced (gap : Int) : List Int → Bool
  | a :: b :: rest => decide (a < b) && decide (b < a + gap) && closelySpaced gap (b :: rest)
  | _ => true

namespace Hopper

/-- Constant from src/src/input.js line 25: the fixed duration handed to the
deadline `setTimeout` in `startHopper`. -/
def HOPPER_TIMEOUT_MS : Nat := 15000

/-- Process-wide mutable state touched by the hopper controller
(src/src/input.js lines 53-64), plus ghost observation fields:
`payLine` is the level last written to `HOPPER_PAY_PIN`, `lowWrites` /
`highWrites` count the `gpioset` calls on that pin, `lastDeadlineMs` records
the duration passed to the most recent deadline `setTimeout`, and `events`
lists the `dispensed` payloads of the `WITHDRAW_COMPLETE` dispatches in
order.  `hopperTimeout` / `hopperMonitor` model whether the deadline timer
is pending and whether the `gpiomon` child is running. -/
structure HopperState where
  shuttingDown : Bool
  hopperActive : Bool
  hopperTarget : Int
  hopperDispensed : Int
  hopperTimeout : Bool
  hopperMonitor : Bool
  payLine : Bool
  lowWrites : Nat
  highWrites : Nat
  lastDeadlineMs : Option Nat
  events : List Int
deriving DecidableEq

/-- Boot state: nothing active, nothing pending, no events. -/
def idleState : HopperState :=
  ⟨false, false, 0, 0, false, false, false, 0, 0, none, []⟩

/-- Body of `dispatch(payload)` (src/src/input.js lines 83-96) restricted to
`WITHDRAW_COMPLETE` payloads: a no-op once `shuttingDown` is set, otherwise
the event is delivered (fire-and-forget). -/
def dispatchComplete (d : Int) (s : HopperState) : HopperState :=
  if s.shuttingDown then s else { s with events := s.events ++ [d] }

/-- `stopHopper()` (src/src/input.js lines 184-204): early return unless
active; otherwise drive the pay pin low, clear the active flag, kill the
monitor, cancel the deadline timer, and dispatch one `WITHDRAW_COMPLETE`
carrying the current `hopperDispensed`. -/
def stopHopper (s : HopperState) : HopperState :=
  if s.hopperActive then
    dispatchComplete s.hopperDispensed
      { s with payLine := false, lowWrites := s.lowWrites + 1,
               hopperActive := false, hopperMonitor := false, hopperTimeout := false }
  else s

/-- `startHopper(amount)` (src/src/input.js lines 149-182): early return if
shutting down or already active; otherwise set the session fields, drive the
pay pin high, spawn the coin-out monitor, and arm the deadline timer with
the fixed duration `HOPPER_TIMEOUT_MS`.  There is no check on `amount`. -/
def startHopper (amount : Int) (s : HopperState) : HopperState :=
  if s.shuttingDown || s.hopperActive then s
  else { s with hopperActive := true, hopperTarget := amount, hopperDispensed := 0,
                payLine := true, highWrites := s.highWrites + 1,
                hopperMonitor := true, hopperTimeout := true,
                lastDeadlineMs := some HOPPER_TIMEOUT_MS }

/-- One line of the monitor's stdout handler (src/src/input.js lines 166-176):
ignored unless active, else increment `hopperDispensed` and stop once the
target is reached (`hopperDispensed >= hopperTarget`). -/
def coinOut (s : HopperState) : HopperState :=
  if s.hopperActive then
    if s.hopperTarget ≤ s.hopperDispensed + 1 then
      stopHopper { s with hopperDispensed := s.hopperDispensed + 1 }
    else { s with hopperDispensed := s.hopperDispensed + 1 }
  else s

/-- A batch of `n` sensor lines arriving on the monitor's stdout handler.
The source's early `return` on `!hopperActive` is equivalent to the per-line
guard in `coinOut`, since once inactive every later line is a no-op. -/
def coinOutN : Nat → HopperState → HopperState
  | 0, s => s
  | n + 1, s => coinOutN n (coinOut s)

/-- The deadline timer callback (src/src/input.js lines 178-181): runs only
if the timer is still pending; firing consumes the pending timer and calls
`stopHopper`. -/
def deadlineFire (s : HopperState) : HopperState :=
  if s.hopperTimeout then stopHopper { s with hopperTimeout := false } else s

/-- `shutdown()` (src/src/input.js lines 236-247): sets `shuttingDown`,
drives the pay pin low, kills the monitor and closes the joystick.  It does
not call `stopHopper`, does not clear `hopperActive` or the pending deadline
timer, and dispatches nothing. -/
def shutdown (s : HopperState) : HopperState :=
  if s.shuttingDown then s
  else { s with shuttingDown := true, payLine := false,
                lowWrites := s.lowWrites + 1, hopperMonitor := false }

/-- Unfolding of `stopHopper` on an active, non-shutting-down state. -/
theorem stopHopper_active (s : HopperState) (ha : s.hopperActive = true)
    (hs : s.shuttingDown = false) :
    stopHopper s =
      { s with payLine := false, lowWrites := s.lowWrites + 1,
               hopperActive := false, hopperMonitor := false, hopperTimeout := false,
               events := s.events ++ [s.hopperDispensed] } := by
  simp [stopHopper, dispatchComplete, ha, hs]

/-- `stopHopper` is the identity on an inactive state. -/
theorem stopHopper_inactive (s : HopperState) (h : s.hopperActive = false) :
    stopHopper s = s := by
  simp [stopHopper, h]

/-- From an active, non-shutting-down state exactly `k ≥ 1` unit pulses short
of its target, a batch of `k` coin-out lines completes the session: the pay
pin is driven low once, the deadline timer is cancelled, and one
`WITHDRAW_COMPLETE` is dispatched with the final count. -/
theorem coinOutN_reaches_target (k : Nat) : ∀ s : HopperState,
    s.hopperActive = true → s.shuttingDown = false → 1 ≤ k →
    s.hopperDispensed + k = s.hopperTarget →
    coinOutN k s =
      { s with hopperDispensed := s.hopperTarget, hopperActive := false,
               hopperMonitor := false, hopperTimeout := false, payLine := false,
               lowWrites := s.lowWrites + 1, events := s.events ++ [s.hopperTarget] } := by
  induction k with
  | zero => intro s _ _ hk _; omega
  | succ n ih =>
    intro s ha hs _ hsum
    rcases Nat.eq_zero_or_pos n with hn | hn
    · subst hn
      have ht : s.hopperTarget ≤ s.hopperDispensed + 1 := by omega
      have ht' : s.hopperTarget = s.hopperDispensed + 1 := by omega
      rw [ht']
      simp [coinOutN, coinOut, ha, hs, ht, stopHopper, dispatchComplete, ht']
    · have hlt : ¬ s.hopperTarget ≤ s.hopperDispensed + 1 := by omega
      have hstep : coinOutN (n + 1) s =
          coinOutN n { s with hopperDispensed := s.hopperDispensed + 1 } := by
        simp [coinOutN, coinOut, ha, hlt]
      rw [hstep,
        ih { s with hopperDispensed := s.hopperDispensed + 1 } (by simp [ha]) (by simp [hs])
          hn (by simp; omega)]

/-- C1: Hopper happy path.  After `startHopper(n)` with `n ≥ 1` from the idle
state, `n` unit coin-out sensor pulses drive the controller to completion:
exactly one `WITHDRAW_COMPLETE` event is emitted carrying `dispensed = n`,
the pay pin is driven low exactly once, the deadline timer is cancelled, the
controller is idle again, and the final count equals the target. -/
theorem hopper_happy_path (n : Nat) (h : 1 ≤ n) :
    (coinOutN n (startHopper (n : Int) idleState)).events = [(n : Int)] ∧
    (coinOutN n (startHopper (n : Int) idleState)).lowWrites = 1 ∧
    (coinOutN n (startHopper (n : Int) idleState)).hopperTimeout = false ∧
    (coinOutN n (startHopper (n : Int) idleState)).hopperActive = false ∧
    (coinOutN n (startHopper (n : Int) idleState)).hopperDispensed = (n : Int) ∧
    (coinOutN n (startHopper (n : Int) idleState)).payLine = false := by
  have hstart : startHopper (n : Int) idleState =
      ⟨false, true, (n : Int), 0, true, true, true, 0, 1, some HOPPER_TIMEOUT_MS, []⟩ := by
    simp [startHopper, idleState]
  rw [hstart, coinOutN_reaches_target n _ rfl rfl h (by simp)]
  simp

/-- Witness for C1 at the spec's example size: a 50-unit session completes
with exactly one `WITHDRAW_COMPLETE` carrying 50. -/
theorem hopper_happy_path_example :
    (coinOutN 50 (startHopper ((50 : Nat) : Int) idleState)).events = [((50 : Nat) : Int)] ∧
    (coinOutN 50 (startHopper ((50 : Nat) : Int) idleState)).lowWrites = 1 ∧
    (coinOutN 50 (startHopper ((50 : Nat) : Int) idleState)).hopperTimeout = false ∧
    (coinOutN 50 (startHopper ((50 : Nat) : Int) idleState)).hopperActive = false ∧
    (coinOutN 50 (startHopper ((50 : Nat) : Int) idleState)).hopperDispensed = ((50 : Nat) : Int) ∧
    (coinOutN 50 (startHopper ((50 : Nat) : Int) idleState)).payLine = false :=
  hopper_happy_path 50 (by norm_num)

/-- C5: `startHopper` does not validate its amount.  A `start(0)` issued
while idle and not shutting down is not a no-op: it activates the session,
drives the pay pin high, and arms the deadline timer — the guard in
src/src/input.js line 150 checks only `shuttingDown || hopperActive`, never
`amount <= 0`. -/
theorem start_nonpositive_not_noop :
    (startHopper 0 idleState).hopperActive = true ∧
    (startHopper 0 idleState).payLine = true ∧
    (startHopper 0 idleState).highWrites = 1 ∧
    (startHopper 0 idleState).hopperTimeout = true ∧
    startHopper 0 idleState ≠ idleState := by
  refine ⟨rfl, rfl, rfl, rfl, ?_⟩
  decide

/-- Counterexample to C6: the duration handed to the deadline `setTimeout`
is the constant `HOPPER_TIMEOUT_MS = 15000`, independent of the requested
target — a 1,000,000-unit payout is granted exactly the same 15 seconds as a
1-unit payout, so longer targets do not get proportionally more time. -/
theorem deadline_not_proportional :
    (startHopper 1 idleState).lastDeadlineMs = some 15000 ∧
    (startHopper 1000000 idleState).lastDeadlineMs = some 15000 := by
  exact ⟨rfl, rfl⟩

/-- C6 (amended): the scheduled dispense deadline is the fixed constant
`HOPPER_TIMEOUT_MS = 15000` ms for every accepted target; as a constant it
is degenerately monotone non-decreasing in the target and never exceeds the
15000 ms ceiling. -/
theorem deadline_fixed (t1 t2 : Int) :
    (startHopper t1 idleState).lastDeadlineMs = some HOPPER_TIMEOUT_MS ∧
    (startHopper t1 idleState).lastDeadlineMs = (startHopper t2 idleState).lastDeadlineMs ∧
    HOPPER_TIMEOUT_MS = 15000 := by
  refine ⟨?_, ?_, rfl⟩ <;> simp [startHopper, idleState]

/-- Counterexample to C7: a shutdown request during an active session (here
after `start(5)` and one coin-out pulse) emits no `WITHDRAW_COMPLETE` at all
and leaves the deadline timer pending — `shutdown()` never calls
`stopHopper`, never clears `hopperTimeout`, and `dispatch` is suppressed
once `shuttingDown` is set. -/
theorem shutdown_emits_nothing :
    (shutdown (coinOut (startHopper 5 idleState))).events = [] ∧
    (shutdown (coinOut (startHopper 5 idleState))).hopperTimeout = true ∧
    (shutdown (coinOut (startHopper 5 idleState))).payLine = false := by
  exact ⟨rfl, rfl, rfl⟩

/-- C7 (amended): the target-reached and deadline (jam) termination paths
both run `stopHopper`, which emits exactly one `WITHDRAW_COMPLETE` carrying
the final dispensed count, drives the pay pin low and cancels the deadline
timer (and a repeated stop adds nothing); a shutdown request synchronously
drives the pay pin low and kills the monitor, but emits no completion event
and leaves any pending deadline timer uncancelled. -/
theorem termination_paths (s : HopperState) :
    (s.hopperActive = true → s.shuttingDown = false →
      (stopHopper s).events = s.events ++ [s.hopperDispensed] ∧
      (stopHopper s).payLine = false ∧
      (stopHopper s).hopperTimeout = false ∧
      stopHopper (stopHopper s) = stopHopper s) ∧
    (s.hopperActive = true → s.shuttingDown = false → s.hopperTimeout = true →
      (deadlineFire s).events = s.events ++ [s.hopperDispensed]) ∧
    (s.shuttingDown = false →
      (shutdown s).payLine = false ∧
      (shutdown s).lowWrites = s.lowWrites + 1 ∧
      (shutdown s).events = s.events ∧
      (shutdown s).hopperTimeout = s.hopperTimeout ∧
      (shutdown s).hopperActive = s.hopperActive) := by
  refine ⟨fun ha hs => ?_, fun ha hs ht => ?_, fun hs => ?_⟩
  · rw [stopHopper_active s ha hs]
    refine ⟨rfl, rfl, rfl, ?_⟩
    rw [stopHopper_inactive _ rfl]
  · simp [deadlineFire, ht, stopHopper, dispatchComplete, ha, hs]
  · simp [shutdown, hs]

/-- Witness for C7 (amended) on a concrete mid-session state: one coin out
of a 5-coin session; stopping emits one completion event carrying 1, and a
shutdown from the same state emits nothing. -/
theorem termination_paths_example :
    ((stopHopper (coinOut (startHopper 5 idleState))).events =
        (coinOut (startHopper 5 idleState)).events ++
          [(coinOut (startHopper 5 idleState)).hopperDispensed] ∧
      (stopHopper (coinOut (startHopper 5 idleState))).payLine = false ∧
      (stopHopper (coinOut (startHopper 5 idleState))).hopperTimeout = false ∧
      stopHopper (stopHopper (coinOut (startHopper 5 idleState))) =
        stopHopper (coinOut (startHopper 5 idleState))) ∧
    ((shutdown (coinOut (startHopper 5 idleState))).payLine = false ∧
      (shutdown (coinOut (startHopper 5 idleState))).lowWrites =
        (coinOut (startHopper 5 idleState)).lowWrites + 1 ∧
      (shutdown (coinOut (startHopper 5 idleState))).events =
        (coinOut (startHopper 5 idleState)).events ∧
      (shutdown (coinOut (startHopper 5 idleState))).hopperTimeout =
        (coinOut (startHopper 5 idleState)).hopperTimeout ∧
      (shutdown (coinOut (startHopper 5 idleState))).hopperActive =
        (coinOut (startHopper 5 idleState)).hopperActive) :=
  ⟨(termination_paths (coinOut (startHopper 5 idleState))).1 rfl rfl,
   (termination_paths (coinOut (startHopper 5 idleState))).2.2 rfl⟩

/-- C8: `stopHopper` is idempotent — stopping twice equals stopping once (so
two consecutive stops after a session produce exactly one
`WITHDRAW_COMPLETE`), and a stop issued while already idle is a complete
no-op: no state change, no actuator write, no event. -/
theorem stopHopper_idempotent (s : HopperState) :
    stopHopper (stopHopper s) = stopHopper s ∧
    (s.hopperActive = false → stopHopper s = s) := by
  constructor
  · cases ha : s.hopperActive
    · rw [stopHopper_inactive s ha, stopHopper_inactive s ha]
    · cases hs : s.shuttingDown
      · rw [stopHopper_active s ha hs, stopHopper_inactive _ rfl]
      · have : stopHopper s =
            { s with payLine := false, lowWrites := s.lowWrites + 1,
                     hopperActive := false, hopperMonitor := false,
                     hopperTimeout := false } := by
          simp [stopHopper, dispatchComplete, ha, hs]
        rw [this, stopHopper_inactive _ rfl]
  · exact fun h => stopHopper_inactive s h

/-- Witness for C8: from the idle boot state a stop is a no-op and a second
stop changes nothing. -/
theorem stopHopper_idempotent_example :
    stopHopper (stopHopper idleState) = stopHopper idleState ∧
    stopHopper idleState = idleState :=
  ⟨(stopHopper_idempotent idleState).1, (stopHopper_idempotent idleState).2 rfl⟩

/-- The external stimuli the hopper controller reacts to: a start command, a
batch of `n` coin-out sensor lines, the deadline timer firing, an explicit
stop, and a shutdown request. -/
inductive HEvent
  | start (amount : Int)
  | coinBatch (n : Nat)
  | deadline
  | stopCmd
  | shutdownReq
deriving DecidableEq

/-- One run-to-completion step of the controller. -/
def stepH : HEvent → HopperState → HopperState
  | .start a, s => startHopper a s
  | .coinBatch n, s => coinOutN n s
  | .deadline, s => deadlineFire s
  | .stopCmd, s => stopHopper s
  | .shutdownReq, s => shutdown s

/-- A sequential trace of controller steps. -/
def runH (tr : List HEvent) (s : HopperState) : HopperState :=
  tr.foldl (fun s e => stepH e s) s

/-- An event is admissible for the C10 invariant when any start command it
carries requests at least one unit. -/
def startOK : HEvent → Bool
  | .start a => decide (1 ≤ a)
  | _ => true

/-- The dispense bound invariant: the count never exceeds the target, and
strictly precedes it while the session is active. -/
def hopperInv (s : HopperState) : Prop :=
  s.hopperDispensed ≤ s.hopperTarget ∧
    (s.hopperActive = true → s.hopperDispensed < s.hopperTarget)

/-- `stopHopper` preserves the dispense bound. -/
theorem stopHopper_inv (s : HopperState) (h : hopperInv s) : hopperInv (stopHopper s) := by
  cases ha : s.hopperActive
  · rwa [stopHopper_inactive s ha]
  · have hd := h.2 ha
    cases hs : s.shuttingDown <;>
      simp [stopHopper, dispatchComplete, ha, hs, hopperInv] <;> omega

/-- A single coin-out line preserves the dispense bound. -/
theorem coinOut_inv (s : HopperState) (h : hopperInv s) : hopperInv (coinOut s) := by
  cases ha : s.hopperActive
  · simpa [coinOut, ha] using h
  · have hd := h.2 ha
    by_cases ht : s.hopperTarget ≤ s.hopperDispensed + 1
    · cases hs : s.shuttingDown <;>
        simp [coinOut, ha, ht, stopHopper, dispatchComplete, hs, hopperInv] <;> omega
    · simp [coinOut, ha, ht, hopperInv]
      omega

/-- A batch of coin-out lines preserves the dispense bound. -/
theorem coinOutN_inv (n : Nat) : ∀ s : HopperState, hopperInv s → hopperInv (coinOutN n s) := by
  induction n with
  | zero => exact fun s h => h
  | succ k ih => exact fun s h => ih (coinOut s) (coinOut_inv s h)

/-- Every admissible controller step preserves the dispense bound. -/
theorem stepH_inv (e : HEvent) (s : HopperState) (h : hopperInv s)
    (he : startOK e = true) : hopperInv (stepH e s) := by
  cases e with
  | start a =>
    have ha : 1 ≤ a := by simpa [startOK] using he
    by_cases hg : s.shuttingDown || s.hopperActive
    · simpa [stepH, startHopper, hg] using h
    · simp [stepH, startHopper, hg, hopperInv]
      omega
  | coinBatch n => exact coinOutN_inv n s h
  | deadline =>
    by_cases ht : s.hopperTimeout
    · have : hopperInv { s with hopperTimeout := false } := by
        simpa [hopperInv] using h
      simpa [stepH, deadlineFire, ht] using stopHopper_inv _ this
    · simpa [stepH, deadlineFire, ht] using h
  | stopCmd => exact stopHopper_inv s h
  | shutdownReq =>
    by_cases hs : s.shuttingDown
    · simpa [stepH, shutdown, hs] using h
    · simpa [stepH, shutdown, hs, hopperInv] using h

/-- The dispense bound holds after any admissible trace. -/
theorem runH_inv (tr : List HEvent) : ∀ s : HopperState, hopperInv s →
    (∀ e ∈ tr, startOK e = true) → hopperInv (runH tr s) := by
  induction tr with
  | nil => exact fun s h _ => h
  | cons e rest ih =>
    intro s h hall
    exact ih (stepH e s) (stepH_inv e s h (hall e (List.mem_cons_self e rest)))
      fun x hx => hall x (List.mem_cons_of_mem e hx)

/-- C10: implicit dispense upper bound.  Along every trace of controller
events starting from boot, in which each start command requests at least one
unit, `hopperDispensed` never exceeds `hopperTarget`: once the count reaches
the target `stopHopper` clears `hopperActive`, and every later coin-out line
(including the rest of the same sensor batch) is ignored by the
`!hopperActive` guard. -/
theorem dispensed_le_target (tr : List HEvent)
    (h : ∀ e ∈ tr, startOK e = true) :
    (runH tr idleState).hopperDispensed ≤ (runH tr idleState).hopperTarget :=
  (runH_inv tr idleState (by exact ⟨le_refl 0, by simp [idleState]⟩) h).1

/-- Witness for C10: a 2-unit session hit with a 5-line sensor batch still
ends with `dispensed ≤ target`. -/
theorem dispensed_le_target_example :
    (runH [HEvent.start 2, HEvent.coinBatch 5] idleState).hopperDispensed ≤
      (runH [HEvent.start 2, HEvent.coinBatch 5] idleState).hopperTarget :=
  dispensed_le_target [HEvent.start 2, HEvent.coinBatch 5] (by decide)

end Hopper

/-- The exact pulse-count-to-credits table `COIN_PULSE_MAP` (src/src/input.js
lines 43-47 and the identical table in src/unnamed/part_005 lines 43-47):
counts 5, 10, 20 map to credits 5, 10, 20; everything else is unmapped. -/
def COIN_PULSE_MAP (p : Nat) : Option Nat :=
  if p = 5 then some 5 else if p = 10 then some 10 else if p = 20 then some 20 else none

namespace Win

/-- Constants from src/src/input.js lines 39-41. -/
def COIN_PULSE_WINDOW_MS : Int := 3000

/-- Minimum spacing between two accepted coins (src/src/input.js line 40). -/
def MIN_COIN_INTERVAL_MS : Int := 1500

/-- Overflow limit on the pulses counted in one window (src/src/input.js line 41). -/
def MAX_PULSES_PER_COIN : Nat := 20

/-- State of the fixed-window coin acceptor in src/src/input.js lines 56-58,
plus ghost fields: `coinEvents` lists the credits of the dispatched `COIN`
events in order, and `finalized` records the pulse count captured at each
window-timer fire.  `coinPulseTimer` is the pending window deadline. -/
structure WinState where
  coinPulseCount : Nat
  coinPulseTimer : Option Int
  lastCoinTime : Int
  coinEvents : List Nat
  finalized : List Nat
deriving DecidableEq

/-- Boot state of the windowed acceptor. -/
def winInit : WinState := ⟨0, none, 0, [], []⟩

/-- The window-timer callback (src/src/input.js lines 109-130), run at time
`now`: capture and reset the pulse count and timer, then drop the group if
it overflowed, or if it fires within `MIN_COIN_INTERVAL_MS` of the last
accepted coin, or if the count is unmapped; otherwise record `lastCoinTime`
and dispatch one `COIN` event. -/
def winFire (now : Int) (s : WinState) : WinState :=
  let pulses := s.coinPulseCount
  let s1 : WinState := ⟨0, none, s.lastCoinTime, s.coinEvents, s.finalized ++ [pulses]⟩
  if pulses > MAX_PULSES_PER_COIN then s1
  else if now - s.lastCoinTime < MIN_COIN_INTERVAL_MS then s1
  else
    match COIN_PULSE_MAP pulses with
    | none => s1
    | some credits => { s1 with lastCoinTime := now, coinEvents := s.coinEvents ++ [credits] }

/-- `handleCoinPulse()` (src/src/input.js lines 102-131) at time `t`:
increment the count, and arm the window timer only if none is pending — the
pending timer is never rescheduled. -/
def winPulse (t : Int) (s : WinState) : WinState :=
  let s1 : WinState := { s with coinPulseCount := s.coinPulseCount + 1 }
  match s1.coinPulseTimer with
  | some _ => s1
  | none => { s1 with coinPulseTimer := some (t + COIN_PULSE_WINDOW_MS) }

/-- Event-loop step at time `t`: a window timer whose deadline has passed
fires (at its own deadline) before the new pulse is handled. -/
def winCheckTimer (t : Int) (s : WinState) : WinState :=
  match s.coinPulseTimer with
  | some d => if d ≤ t then winFire d s else s
  | none => s

/-- Feed raw pulses at the given (increasing) timestamps through the
windowed acceptor. -/
def winRun : List Int → WinState → WinState
  | [], s => s
  | t :: ts, s => winRun ts (winPulse t (winCheckTimer t s))

/-- End of input: let a pending window timer fire. -/
def winEnd (s : WinState) : WinState :=
  match s.coinPulseTimer with
  | some d => winFire d s
  | none => s

/-- Counterexample to C2 on src/src/input.js: three pulses at 0, 2000 and
4000 ms are each spaced 2000 ms apart — closer than the 3000 ms window
constant — yet the acceptor finalizes two groups (counts 2 and 1), not one
group of 3: `handleCoinPulse` arms one fixed `COIN_PULSE_WINDOW_MS` timer on
the first pulse and returns without rescheduling on later pulses, so the
window fires at 3000 ms mid-sequence.  Raw pulses do not cancel and
reschedule any idle timer in this variant. -/
theorem window_splits_close_pulses :
    (winEnd (winRun [0, 2000, 4000] winInit)).finalized = [2, 1] ∧
    (winEnd (winRun [0, 2000, 4000] winInit)).finalized ≠ [3] :=
  ⟨rfl, by decide⟩

/-- C4 (amended): credit resolution is fail-closed in the windowed acceptor
of src/src/input.js.  If the captured pulse count is unmapped (e.g. 7 under
the exact table), the window fire emits no `COIN` event and leaves
`lastCoinTime` untouched; conversely, whenever a fire changes the event list
it appends exactly the credit value that `COIN_PULSE_MAP` resolves the count
to.  (In src/unnamed/part_004 the resolver is bypassed and raw pulse counts
are credited unconditionally; see the counterexample in the `Batch`
namespace.) -/
theorem resolver_fail_closed (now : Int) (s : WinState) :
    (COIN_PULSE_MAP s.coinPulseCount = none →
      (winFire now s).coinEvents = s.coinEvents ∧
      (winFire now s).lastCoinTime = s.lastCoinTime) ∧
    ((winFire now s).coinEvents ≠ s.coinEvents →
      ∃ c, COIN_PULSE_MAP s.coinPulseCount = some c ∧
        (winFire now s).coinEvents = s.coinEvents ++ [c]) := by
  unfold winFire
  by_cases h1 : s.coinPulseCount > MAX_PULSES_PER_COIN
  · simp [h1]
  · by_cases h2 : now - s.lastCoinTime < MIN_COIN_INTERVAL_MS
    · simp [h1, h2]
    · cases hm : COIN_PULSE_MAP s.coinPulseCount <;> simp [h1, h2, hm]

/-- Witness for C4: a 7-pulse group resolves to none, so its window fire
grants no credit and does not update `lastCoinTime`. -/
theorem resolver_fail_closed_seven :
    (winFire 5000 ⟨7, none, 0, [], []⟩).coinEvents = [] ∧
    (winFire 5000 ⟨7, none, 0, [], []⟩).lastCoinTime = 0 :=
  (resolver_fail_closed 5000 ⟨7, none, 0, [], []⟩).1 rfl

/-- C9: minimum-interval coin suppression in the windowed acceptor.  A
window fire landing less than `MIN_COIN_INTERVAL_MS` after the previously
accepted coin is silently discarded — no `COIN` event, `lastCoinTime`
unchanged — even when the pulse count is mapped; and `lastCoinTime` changes
only when a coin is actually accepted, in which case it becomes the fire
time and exactly one resolved `COIN` event is appended. -/
theorem min_interval_suppression (now : Int) (s : WinState) :
    (now - s.lastCoinTime < MIN_COIN_INTERVAL_MS →
      (winFire now s).coinEvents = s.coinEvents ∧
      (winFire now s).lastCoinTime = s.lastCoinTime) ∧
    ((winFire now s).lastCoinTime ≠ s.lastCoinTime →
      (winFire now s).lastCoinTime = now ∧
      ∃ c, COIN_PULSE_MAP s.coinPulseCount = some c ∧
        (winFire now s).coinEvents = s.coinEvents ++ [c]) := by
  unfold winFire
  by_cases h1 : s.coinPulseCount > MAX_PULSES_PER_COIN
  · simp [h1]
  · by_cases h2 : now - s.lastCoinTime < MIN_COIN_INTERVAL_MS
    · simp [h1, h2]
    · cases hm : COIN_PULSE_MAP s.coinPulseCount <;> simp [h1, h2, hm]

/-- Witness for C9: a 10-pulse group (mapped to 10 credits) whose window
fires 1000 ms after the last accepted coin is suppressed: no event, and
`lastCoinTime` stays 1000. -/
theorem min_interval_suppression_example :
    (winFire 2000 ⟨10, none, 1000, [], []⟩).coinEvents = [] ∧
    (winFire 2000 ⟨10, none, 1000, [], []⟩).lastCoinTime = 1000 :=
  (min_interval_suppression 2000 ⟨10, none, 1000, [], []⟩).1 (by decide)

end Win

namespace Gap

/-- Idle gap ending one coin (src/unnamed/part_005 line 40). -/
def COIN_IDLE_GAP_MS : Int := 350

/-- Overflow limit per group (src/unnamed/part_005 line 41). -/
def MAX_PULSES_PER_COIN : Nat := 20

/-- State of the gap-based coin acceptor in src/unnamed/part_005 lines
56-57, plus ghost fields: `finalized` records the pulse count captured by
each `finalizeCoin` run, `coinEvents` the credits of the dispatched `COIN`
events.  `coinIdleTimer` is the pending idle deadline. -/
structure GapState where
  coinPulseCount : Nat
  coinIdleTimer : Option Int
  finalized : List Nat
  coinEvents : List Nat
deriving DecidableEq

/-- Boot state of the gap-based acceptor. -/
def gapInit : GapState := ⟨0, none, [], []⟩

/-- `handleCoinPulse()` (src/unnamed/part_005 lines 101-114) at time `t`:
increment the count; on overflow `resetCoin()` discards the group; otherwise
cancel any pending idle timer and (re)schedule it for `COIN_IDLE_GAP_MS`.
(The overflow branch nulls the timer handle without `clearTimeout`; the
orphaned callback could only matter after an overflow, which the theorems
below exclude by bounding the group size.) -/
def handleCoinPulse (t : Int) (s : GapState) : GapState :=
  if s.coinPulseCount + 1 > MAX_PULSES_PER_COIN then ⟨0, none, s.finalized, s.coinEvents⟩
  else ⟨s.coinPulseCount + 1, some (t + COIN_IDLE_GAP_MS), s.finalized, s.coinEvents⟩

/-- `finalizeCoin()` (src/unnamed/part_005 lines 116-132): capture the pulse
count, `resetCoin()`, then look the count up in `COIN_PULSE_MAP` and
dispatch one `COIN` event if it is mapped. -/
def finalizeCoin (s : GapState) : GapState :=
  let pulses := s.coinPulseCount
  let s1 : GapState := ⟨0, none, s.finalized ++ [pulses], s.coinEvents⟩
  match COIN_PULSE_MAP pulses with
  | none => s1
  | some credits => { s1 with coinEvents := s.coinEvents ++ [credits] }

/-- Event-loop step at time `t`: an idle timer whose deadline has passed
fires before the new pulse is handled. -/
def gapCheckTimer (t : Int) (s : GapState) : GapState :=
  match s.coinIdleTimer with
  | some d => if d ≤ t then finalizeCoin s else s
  | none => s

/-- Feed raw pulses at the given (increasing) timestamps through the
gap-based acceptor. -/
def gapRun : List Int → GapState → GapState
  | [], s => s
  | t :: ts, s => gapRun ts (handleCoinPulse t (gapCheckTimer t s))

/-- End of input: let a pending idle timer fire. -/
def gapEnd (s : GapState) : GapState :=
  match s.coinIdleTimer with
  | some _ => finalizeCoin s
  | none => s

/-- Mid-group invariant: with `c ≥ 1` pulses counted, the idle timer armed
at `prev`, and every remaining pulse arriving within the idle gap of its
predecessor, the rest of the run finalizes exactly one group holding all
`c + ts.length` pulses. -/
theorem gapRun_aux (ts : List Int) : ∀ (prev : Int) (c : Nat) (F E : List Nat),
    1 ≤ c → c + ts.length ≤ MAX_PULSES_PER_COIN →
    closelySpaced COIN_IDLE_GAP_MS (prev :: ts) = true →
    (gapEnd (gapRun ts ⟨c, some (prev + COIN_IDLE_GAP_MS), F, E⟩)).finalized =
        F ++ [c + ts.length] ∧
    (gapEnd (gapRun ts ⟨c, some (prev + COIN_IDLE_GAP_MS), F, E⟩)).coinPulseCount = 0 ∧
    (gapEnd (gapRun ts ⟨c, some (prev + COIN_IDLE_GAP_MS), F, E⟩)).coinIdleTimer = none := by
  induction ts with
  | nil =>
    intro prev c F E _ _ _
    cases hm : COIN_PULSE_MAP c <;> simp [gapRun, gapEnd, finalizeCoin, hm]
  | cons t ts ih =>
    intro prev c F E hc hmax hsp
    have hsp' : prev < t ∧ t < prev + COIN_IDLE_GAP_MS ∧
        closelySpaced COIN_IDLE_GAP_MS (t :: ts) = true := by
      simpa [closelySpaced, Bool.and_eq_true, decide_eq_true_eq, and_assoc] using hsp
    have hnofire : ¬ prev + COIN_IDLE_GAP_MS ≤ t := by omega
    have hover : ¬ c + 1 > MAX_PULSES_PER_COIN := by
      simp only [MAX_PULSES_PER_COIN, List.length_cons] at hmax ⊢
      omega
    have hstep : gapRun (t :: ts) ⟨c, some (prev + COIN_IDLE_GAP_MS), F, E⟩ =
        gapRun ts ⟨c + 1, some (t + COIN_IDLE_GAP_MS), F, E⟩ := by
      simp [gapRun, gapCheckTimer, hnofire, handleCoinPulse, hover]
    rw [hstep]
    have := ih t (c + 1) F E (by omega)
      (by simp only [MAX_PULSES_PER_COIN, List.length_cons] at hmax ⊢; omega) hsp'.2.2
    simpa [Nat.add_assoc, Nat.add_comm 1 ts.length] using this

/-- C2 (amended, gap-based variant of src/unnamed/part_005): every raw pulse
cancels the pending idle timer and reschedules it for `COIN_IDLE_GAP_MS`, so
any nonempty sequence of `N ≤ MAX_PULSES_PER_COIN` pulses, each arriving
within the idle gap of its predecessor, finalizes exactly one pulse group
and that group carries `pulseCount = N`.  (The src/src/input.js variant
instead arms a single fixed-window timer; see the counterexample.) -/
theorem gap_debounce_single_group (ts : List Int) (h1 : ts ≠ [])
    (h2 : closelySpaced COIN_IDLE_GAP_MS ts = true)
    (h3 : ts.length ≤ MAX_PULSES_PER_COIN) :
    (gapEnd (gapRun ts gapInit)).finalized = [ts.length] ∧
    (gapEnd (gapRun ts gapInit)).coinPulseCount = 0 ∧
    (gapEnd (gapRun ts gapInit)).coinIdleTimer = none := by
  match ts, h1 with
  | t :: rest, _ =>
    have hover : ¬ (0 : Nat) + 1 > MAX_PULSES_PER_COIN := by simp [MAX_PULSES_PER_COIN]
    have hstep : gapRun (t :: rest) gapInit =
        gapRun rest ⟨1, some (t + COIN_IDLE_GAP_MS), [], []⟩ := by
      simp [gapRun, gapInit, gapCheckTimer, handleCoinPulse, hover]
    rw [hstep]
    have hlen : 1 + rest.length ≤ MAX_PULSES_PER_COIN := by
      simpa [List.length_cons, Nat.add_comm] using h3
    have := gapRun_aux rest t 1 [] [] (le_refl 1) hlen h2
    simpa [List.length_cons, Nat.add_comm] using this

/-- Witness for C2 (amended): three pulses at 0, 100 and 200 ms — each gap
100 ms, under the 350 ms idle gap — finalize exactly one group of 3. -/
theorem gap_debounce_single_group_example :
    (gapEnd (gapRun [0, 100, 200] gapInit)).finalized = [([0, 100, 200] : List Int).length] ∧
    (gapEnd (gapRun [0, 100, 200] gapInit)).coinPulseCount = 0 ∧
    (gapEnd (gapRun [0, 100, 200] gapInit)).coinIdleTimer = none :=
  gap_debounce_single_group [0, 100, 200] (by decide) (by decide) (by decide)

end Gap

namespace Batch

/-- Gap ending a coin-insertion session (src/unnamed/part_004 line 41). -/
def COIN_BATCH_GAP_MS : Int := 120

/-- Batch-aggregator state from src/unnamed/part_004 lines 62-63, plus the
ghost `coinEvents` listing the credits of the dispatched `COIN` events in
order.  `batchTimer` is the pending flush deadline. -/
structure BatchState where
  batchCredits : Nat
  batchTimer : Option Int
  coinEvents : List Nat
deriving DecidableEq

/-- Boot state of the batch aggregator. -/
def batchInit : BatchState := ⟨0, none, []⟩

/-- Nominal pulse counts per coin (src/unnamed/part_004 lines 45-49):
pairs of (nominal pulse count, credit value). -/
def COIN_DENOMINATIONS : List (Nat × Nat) := [(5, 5), (10, 10), (20, 20)]

/-- Allowed pulse tolerance in pulses (src/unnamed/part_004 line 52). -/
def PULSE_TOLERANCE : Nat := 2

/-- The loop guard `delta < bestDelta` of `resolveCoinValue`, where `none`
models the initial `Infinity`. -/
def deltaBeats (delta : Nat) : Option Nat → Bool
  | none => true
  | some b => decide (delta < b)

/-- One iteration of the `resolveCoinValue` loop over `(best, bestDelta)`:
a denomination within tolerance and strictly closer than the best so far
replaces it. -/
def resolveStep (pulses : Nat) (acc : Option (Nat × Nat) × Option Nat) (coin : Nat × Nat) :
    Option (Nat × Nat) × Option Nat :=
  let delta := ((pulses : Int) - (coin.1 : Int)).natAbs
  if delta ≤ PULSE_TOLERANCE ∧ deltaBeats delta acc.2 = true then (some coin, some delta)
  else acc

/-- `resolveCoinValue(pulses)` (src/unnamed/part_004 lines 114-127): the
nearest nominal within `PULSE_TOLERANCE`, or `none`.  This is part_004's
configured resolution policy — but its call site in `finalizeCoin` is
commented out in the source, so it never gates crediting. -/
def resolveCoinValue (pulses : Nat) : Option Nat :=
  ((COIN_DENOMINATIONS.foldl (resolveStep pulses) (none, none)).1).map Prod.snd

/-- Body of `flushBatch()` (src/unnamed/part_004 lines 186-198): early
return when nothing is accumulated, otherwise dispatch one `COIN` event
carrying the whole accumulator and reset it to 0. -/
def flushBatch (s : BatchState) : BatchState :=
  if s.batchCredits = 0 then s
  else ⟨0, none, s.coinEvents ++ [s.batchCredits]⟩

/-- The flush timer firing: the pending deadline is consumed, then
`flushBatch` runs.  (In the early-return case the source leaves the dead
handle in `batchTimer`; clearing a dead handle is a no-op, so pendingness is
what the `Option` tracks.) -/
def fireFlush (s : BatchState) : BatchState :=
  flushBatch { s with batchTimer := none }

/-- The batch-accumulation tail of `finalizeCoin()` (src/unnamed/part_004
lines 179-183) for a coin worth `p` finalized at time `t`: add the value to
the accumulator, cancel any pending flush timer and reschedule it for
`COIN_BATCH_GAP_MS`.  (In this variant the value added is the raw pulse
count — the `resolveCoinValue` call is commented out in the source.) -/
def finalizeCoin (p : Nat) (t : Int) (s : BatchState) : BatchState :=
  ⟨s.batchCredits + p, some (t + COIN_BATCH_GAP_MS), s.coinEvents⟩

/-- Event-loop step at time `t`: a flush timer whose deadline has passed
fires before the newly finalized coin is accumulated. -/
def batchCheckTimer (t : Int) (s : BatchState) : BatchState :=
  match s.batchTimer with
  | some d => if d ≤ t then fireFlush s else s
  | none => s

/-- One finalized coin `(t, p)` arriving at the aggregator. -/
def batchStep (s : BatchState) : Int × Nat → BatchState
  | (t, p) => finalizeCoin p t (batchCheckTimer t s)

/-- Feed a sequence of finalized coins (timestamp, value) through the
aggregator. -/
def batchRun (l : List (Int × Nat)) (s : BatchState) : BatchState :=
  l.foldl batchStep s

/-- End of input: let a pending flush timer fire. -/
def batchEnd (s : BatchState) : BatchState :=
  match s.batchTimer with
  | some _ => fireFlush s
  | none => s

/-- A flush fire conserves value, and always empties the accumulator. -/
theorem fireFlush_conserve (s : BatchState) :
    (fireFlush s).coinEvents.sum + (fireFlush s).batchCredits =
      s.coinEvents.sum + s.batchCredits ∧
    (fireFlush s).batchCredits = 0 := by
  by_cases h : s.batchCredits = 0 <;> simp [fireFlush, flushBatch, h]

/-- A timer check conserves value. -/
theorem batchCheckTimer_conserve (t : Int) (s : BatchState) :
    (batchCheckTimer t s).coinEvents.sum + (batchCheckTimer t s).batchCredits =
      s.coinEvents.sum + s.batchCredits := by
  unfold batchCheckTimer
  cases hm : s.batchTimer with
  | none => rfl
  | some d =>
    by_cases hd : d ≤ t
    · simpa [hd] using (fireFlush_conserve s).1
    · simp [hd]

/-- A whole run conserves value: dispatched plus pending equals everything
accumulated. -/
theorem batchRun_conserve (l : List (Int × Nat)) : ∀ s : BatchState,
    (batchRun l s).coinEvents.sum + (batchRun l s).batchCredits =
      s.coinEvents.sum + s.batchCredits + (l.map Prod.snd).sum := by
  induction l with
  | nil => intro s; simp [batchRun]
  | cons x rest ih =>
    intro s
    obtain ⟨t, p⟩ := x
    have hstep : batchRun ((t, p) :: rest) s = batchRun rest (batchStep s (t, p)) := rfl
    rw [hstep, ih (batchStep s (t, p))]
    have := batchCheckTimer_conserve t s
    simp only [batchStep, finalizeCoin, List.map_cons, List.sum_cons]
    omega

/-- Whenever no flush timer is pending, the accumulator is empty. -/
theorem batchRun_tidy (l : List (Int × Nat)) : ∀ s : BatchState,
    (s.batchTimer = none → s.batchCredits = 0) →
    ((batchRun l s).batchTimer = none → (batchRun l s).batchCredits = 0) := by
  induction l with
  | nil => exact fun s h => h
  | cons x rest ih =>
    intro s _
    obtain ⟨t, p⟩ := x
    have hstep : batchRun ((t, p) :: rest) s = batchRun rest (batchStep s (t, p)) := rfl
    rw [hstep]
    exact ih (batchStep s (t, p)) (by simp [batchStep, finalizeCoin])

/-- Mid-batch invariant: while every remaining coin arrives within the batch
gap of its predecessor, nothing is flushed — the accumulator keeps the full
sum and the timer stays armed. -/
theorem batchRun_no_flush (l : List (Int × Nat)) : ∀ (prev : Int) (c : Nat) (E : List Nat),
    closelySpaced COIN_BATCH_GAP_MS (prev :: l.map Prod.fst) = true →
    ∃ d : Int, batchRun l ⟨c, some (prev + COIN_BATCH_GAP_MS), E⟩ =
      ⟨c + (l.map Prod.snd).sum, some d, E⟩ := by
  induction l with
  | nil => exact fun prev c E _ => ⟨prev + COIN_BATCH_GAP_MS, by simp [batchRun]⟩
  | cons x rest ih =>
    intro prev c E hsp
    obtain ⟨t, p⟩ := x
    have hsp' : prev < t ∧ t < prev + COIN_BATCH_GAP_MS ∧
        closelySpaced COIN_BATCH_GAP_MS (t :: rest.map Prod.fst) = true := by
      simpa [closelySpaced, Bool.and_eq_true, decide_eq_true_eq, and_assoc] using hsp
    have hnofire : ¬ prev + COIN_BATCH_GAP_MS ≤ t := by omega
    have hstep : batchRun ((t, p) :: rest) ⟨c, some (prev + COIN_BATCH_GAP_MS), E⟩ =
        batchRun rest ⟨c + p, some (t + COIN_BATCH_GAP_MS), E⟩ := by
      simp [batchRun, batchStep, batchCheckTimer, hnofire, finalizeCoin]
    rw [hstep]
    obtain ⟨d, hd⟩ := ih t (c + p) E hsp'.2.2
    exact ⟨d, by rw [hd]; simp [Nat.add_assoc]⟩

/-- C3: batch aggregation never loses credits.  Every finalized coin value
is added to the accumulator without touching the event list; a flush fire
with a positive accumulator dispatches exactly one `COIN` event carrying the
whole accumulated sum and resets it to 0; over any input the dispatched
total plus the pending accumulator equals everything accumulated (so each
credit is either still pending or flushed exactly once, and once input ends
everything has been flushed); and a nonempty burst of coins each arriving
within `COIN_BATCH_GAP_MS` of its predecessor yields exactly one `COIN`
event carrying their total. -/
theorem batch_never_loses_credits :
    (∀ s : BatchState, 0 < s.batchCredits →
      (fireFlush s).coinEvents = s.coinEvents ++ [s.batchCredits] ∧
      (fireFlush s).batchCredits = 0) ∧
    (∀ (p : Nat) (t : Int) (s : BatchState),
      (finalizeCoin p t s).batchCredits = s.batchCredits + p ∧
      (finalizeCoin p t s).coinEvents = s.coinEvents) ∧
    (∀ l : List (Int × Nat),
      (batchEnd (batchRun l batchInit)).coinEvents.sum = (l.map Prod.snd).sum ∧
      (batchEnd (batchRun l batchInit)).batchCredits = 0) ∧
    (∀ l : List (Int × Nat), l ≠ [] →
      closelySpaced COIN_BATCH_GAP_MS (l.map Prod.fst) = true →
      0 < (l.map Prod.snd).sum →
      (batchEnd (batchRun l batchInit)).coinEvents = [(l.map Prod.snd).sum]) := by
  refine ⟨?_, ?_, ?_, ?_⟩
  · intro s h
    have hne : ¬ s.batchCredits = 0 := by omega
    simp [fireFlush, flushBatch, hne]
  · intro p t s; exact ⟨rfl, rfl⟩
  · intro l
    have hcons := batchRun_conserve l batchInit
    have htidy := batchRun_tidy l batchInit (fun _ => rfl)
    rw [show batchInit.coinEvents = [] from rfl, show batchInit.batchCredits = 0 from rfl] at hcons
    simp only [List.sum_nil, Nat.zero_add] at hcons
    cases hm : (batchRun l batchInit).batchTimer with
    | none =>
      have h0 := htidy hm
      constructor
      · simp only [batchEnd, hm]
        omega
      · simp only [batchEnd, hm, h0]
    | some d =>
      have hf := fireFlush_conserve (batchRun l batchInit)
      constructor
      · simp only [batchEnd, hm]
        omega
      · simp only [batchEnd, hm, hf.2]
  · intro l hne hsp hpos
    match l, hne with
    | (t, p) :: rest, _ =>
      have hstep : batchRun ((t, p) :: rest) batchInit =
          batchRun rest ⟨p, some (t + COIN_BATCH_GAP_MS), []⟩ := by
        simp [batchRun, batchStep, batchInit, batchCheckTimer, finalizeCoin]
      have hsp' : closelySpaced COIN_BATCH_GAP_MS (t :: rest.map Prod.fst) = true := by
        simpa using hsp
      obtain ⟨d, hd⟩ := batchRun_no_flush rest t p [] hsp'
      have hpos' : ¬ p + (rest.map Prod.snd).sum = 0 := by
        simp only [List.map_cons, List.sum_cons] at hpos
        omega
      rw [hstep, hd]
      simp [batchEnd, fireFlush, flushBatch, hpos']

/-- Counterexample to C4 on src/unnamed/part_004: a finalized group of a
single pulse is unresolvable under the file's configured tolerance table —
`resolveCoinValue 1 = none` (1 is more than 2 pulses from every nominal) —
yet `finalizeCoin` credits the raw pulse count unconditionally (its
`resolveCoinValue` call is commented out, lines 167-173), so the group is
accumulated and flushed as a `COIN` event carrying 1 credit.  Credit IS
granted for an unresolvable pulse count, refuting fail-closed resolution
for every finalized pulse group. -/
theorem part004_credits_unresolvable_count :
    resolveCoinValue 1 = none ∧
    (batchEnd (batchRun [((0 : Int), (1 : Nat))] batchInit)).coinEvents = [1] ∧
    (batchEnd (batchRun [((0 : Int), (1 : Nat))] batchInit)).coinEvents ≠ [] :=
  ⟨rfl, rfl, by decide⟩

/-- Witness for C3: a 15-credit accumulator flushes as one `COIN(15)` event,
and the spec's example — coins worth 5 and 10 finalized 50 ms apart —
produces exactly one `COIN` event with credits 15. -/
theorem batch_never_loses_credits_example :
    ((fireFlush ⟨15, some 120, []⟩).coinEvents = [] ++ [(15 : Nat)] ∧
      (fireFlush ⟨15, some 120, []⟩).batchCredits = 0) ∧
    (batchEnd (batchRun [((0 : Int), (5 : Nat)), ((50 : Int), (10 : Nat))] batchInit)).coinEvents =
      [(([((0 : Int), (5 : Nat)), ((50 : Int), (10 : Nat))].map Prod.snd).sum : Nat)] :=
  ⟨batch_never_loses_credits.1 ⟨15, some 120, []⟩ (by decide),
   batch_never_loses_credits.2.2.2 [((0 : Int), (5 : Nat)), ((50 : Int), (10 : Nat))]
     (by decide) (by decide) (by decide)⟩

end Batch

end ArcadeInput
